import Mathlib

/-!
Shallow embedding of the SuperZork Conversation Engine
(`superzork.py` / `superzork_gui.py`): the message store, the context
budgeter (`truncate_messages`), the streaming completion client
(`stream_llm_chat`), and the conversation controller
(`handle_special_commands` / `run` in the terminal front end,
`process_input` / `update_ai_response` in the GUI front end).

Conventions of the embedding:
* Python `dict {"role": r, "content": c}` chat entries become the
  `Message` structure.
* The budget `num_ctx * 0.8` is a Python float compared against an integer
  word count; every float is a rational number, so the budget is embedded
  as an arbitrary rational `B` and theorems quantify over it.
* Python `str.strip()` / `str.lower()` / `str.split()` are embedded for
  their ASCII whitespace behaviour (`pyStrip`, `pyLower`, `pyWordCount`).
* The HTTP stream is embedded by the per-line parse results the client can
  observe (`StreamLine`) plus how the iteration ends (`StreamFate`):
  either the connection closes, or a `requests` exception is raised after
  the listed lines were delivered (an exception at `requests.post` itself
  corresponds to an empty line list).
-/

/-- One chat entry, `{"role": ..., "content": ...}` in the source. -/
structure Message where
  role : String
  content : String
deriving DecidableEq

/-- ASCII approximation of the whitespace class used by Python's
`str.strip()` and `str.split()`. -/
def pyIsSpace (c : Char) : Bool :=
  c = ' ' || c = '\t' || c = '\n' || c = '\r' || c = '\x0b' || c = '\x0c'

/-- Python `s.strip()`: remove leading and trailing whitespace. -/
def pyStrip (s : String) : String :=
  ⟨((s.data.dropWhile pyIsSpace).reverse.dropWhile pyIsSpace).reverse⟩

/-- Python `s.lower()` (ASCII): lower-case every character. -/
def pyLower (s : String) : String :=
  ⟨s.data.map Char.toLower⟩

/-- Counts the maximal nonempty runs of non-whitespace characters; the
boolean records whether the previous character was part of a run. -/
def countWordsAux : List Char → Bool → Nat
  | [], _ => 0
  | c :: rest, inWord =>
      if pyIsSpace c then countWordsAux rest false
      else (if inWord then 0 else 1) + countWordsAux rest true

/-- Python `len(s.split())`: the number of maximal nonempty runs of
non-whitespace characters (`str.split()` with no argument splits on runs
of whitespace and drops empty pieces). -/
def pyWordCount (s : String) : Nat :=
  countWordsAux s.data false

/-- `sum(len(message['content'].split()) for message in messages)`:
the running word total `truncate_messages` maintains (the source keeps it
incrementally, subtracting each removed entry's word count, which equals
recomputing the sum over the remaining entries). -/
def totalWords (msgs : List Message) : Nat :=
  (msgs.map (fun m => pyWordCount m.content)).sum

/-- The `while` loop of `truncate_messages`: while the running total
exceeds the budget and more than 3 messages remain, pop the message at
index 1 (the loop variable `index` is initialised to 1 and never changed;
the inner `index < len(self.messages) - 1` guard matches the source even
though it cannot fail while the outer condition holds). -/
def truncateLoop (B : ℚ) (msgs : List Message) : List Message :=
  if B < (totalWords msgs : ℚ) ∧ 3 < msgs.length then
    if h1 : 1 < msgs.length - 1 then
      truncateLoop B (msgs.eraseIdx 1)
    else
      msgs
  else
    msgs
termination_by msgs.length
decreasing_by
  have h2 : 1 < msgs.length := lt_of_lt_of_le h1 (Nat.sub_le _ _)
  have := List.length_eraseIdx_of_lt (l := msgs) (i := 1) h2
  omega

/-- `SuperZorkGame.truncate_messages` / `SuperZorkGUI.truncate_messages`
(identical in both front ends): early return when fewer than 2 messages,
otherwise run the pruning loop.  `B` stands for `self.num_ctx * 0.8`. -/
def truncate_messages (B : ℚ) (msgs : List Message) : List Message :=
  if msgs.length < 2 then msgs else truncateLoop B msgs

/-- The parse result of one line of the streaming HTTP response, as
observed by the `for line in response.iter_lines()` loop:
an empty line (skipped by `if line:`), a line `json.loads` rejects
(`json.JSONDecodeError`, skipped by the `except ... continue`), or a JSON
object carrying an optional `message.content` field and a `done` flag
(`json_data.get('done', False)`). -/
inductive StreamLine where
  | empty : StreamLine
  | malformed : StreamLine
  | obj : Option String → Bool → StreamLine
deriving DecidableEq

/-- How the iteration over the response ends when no `done:true` object is
seen first: the connection closes (`iter_lines` is exhausted), or one of
the three `requests` exceptions is raised — after `requests.post` itself,
or mid-iteration after some lines were already delivered. -/
inductive StreamFate where
  | closed : StreamFate
  | errTimeout : StreamFate
  | errConn : StreamFate
  | errReq : StreamFate
deriving DecidableEq

/-- Fallback narrative for `requests.exceptions.Timeout`. -/
def timeoutFallback : String :=
  "The ancient spirits are taking their time to respond... Perhaps try a simpler command or restart the game if this persists."

/-- Fallback narrative for `requests.exceptions.ConnectionError`. -/
def connectionFallback : String :=
  "The magical connection to the underground realm has been severed. Please ensure Ollama is running and try again."

/-- Fallback narrative for `requests.exceptions.RequestException`. -/
def requestFallback : String :=
  "The mystical AI oracle has encountered an error. Please check your connection and try again."

/-- The fragment the `except` clauses yield for each way the stream can
end (nothing when the stream just closes without error). -/
def fateFallback : StreamFate → List String
  | .closed => []
  | .errTimeout => [timeoutFallback]
  | .errConn => [connectionFallback]
  | .errReq => [requestFallback]

/-- The fragments one parsed object contributes:
`if 'message' in json_data and 'content' in json_data['message']:` then
`if content: yield content` (empty string is falsy and not yielded). -/
def lineFragment : Option String → List String
  | some c => if c ≠ "" then [c] else []
  | none => []

/-- The fragment sequence `stream_llm_chat` yields for a stream whose
delivered line parses are `lines` and which then ends as `fate`:
each object line may yield its content, `done:true` breaks out of the
loop, empty and malformed lines are skipped, and if the loop is instead
ended by a raised exception the matching `except` clause yields its
single fallback fragment after everything already yielded. -/
def sessionFragments : List StreamLine → StreamFate → List String
  | [], fate => fateFallback fate
  | .empty :: rest, fate => sessionFragments rest fate
  | .malformed :: rest, fate => sessionFragments rest fate
  | .obj c d :: rest, fate =>
      if d then lineFragment c
      else lineFragment c ++ sessionFragments rest fate

/-- The side effect at the top of `stream_llm_chat` (both front ends):
`if message.strip(): self.messages.append({"role": "user", "content": message})`. -/
def appendUserIfNonblank (msgs : List Message) (message : String) : List Message :=
  if pyStrip message ≠ "" then msgs ++ [⟨"user", message⟩] else msgs

/-- `response_text = ""` followed by `response_text += token` for each
streamed token, as in `SuperZorkGame.run`. -/
def accumulate (tokens : List String) : String :=
  tokens.foldl (fun acc t => acc ++ t) ""

/-- The commit step of `SuperZorkGame.run`: after draining the stream,
`if response_text: self.messages.append({"role": "assistant", "content": response_text})`. -/
def commitResponse (msgs : List Message) (tokens : List String) : List Message :=
  if accumulate tokens ≠ "" then msgs ++ [⟨"assistant", accumulate tokens⟩] else msgs

/-- `SuperZorkGame.handle_special_commands`.  Returns the updated message
list and the boolean result.  The source returns `True` only in the
`quit` branch; `undo`, `debug` and `help` all return `False`.  The `undo`
branch reads one replacement line (`updated_story`, passed here as an
argument): it pops the trailing assistant entry when
`len(self.messages) > 1 and self.messages[-1]["role"] == "assistant"`,
then appends the replacement as a new assistant entry when it is
non-blank. -/
def handle_special_commands (msgs : List Message) (user_input updated_story : String) :
    List Message × Bool :=
  let command := pyStrip (pyLower user_input)
  if command = "quit" then
    (msgs, true)
  else if command = "undo" then
    if 1 < msgs.length ∧ (msgs.getLast?).map Message.role = some "assistant" then
      let popped := msgs.dropLast
      if pyStrip updated_story ≠ "" then
        (popped ++ [⟨"assistant", updated_story⟩], false)
      else
        (popped, false)
    else
      (msgs, false)
  else if command = "debug" then
    (msgs, false)
  else if command = "help" then
    (msgs, false)
  else
    (msgs, false)

/-- One iteration of the `while True:` body of `SuperZorkGame.run` for a
(stripped, nonempty) line of player input: `handle_special_commands`
(breaking the loop, with no further change, when it returns `True` —
i.e. for `quit`), then `truncate_messages`, then draining
`stream_llm_chat(user_input)` and committing the accumulated response.
`lines`/`fate` describe the backend stream of this iteration. -/
def loopStep (B : ℚ) (user_input updated_story : String) (lines : List StreamLine)
    (fate : StreamFate) (msgs : List Message) : List Message :=
  let hs := handle_special_commands msgs user_input updated_story
  if hs.2 then
    hs.1
  else
    commitResponse (appendUserIfNonblank (truncate_messages B hs.1) user_input)
      (sessionFragments lines fate)

/-- The conversations the terminal game loop can reach, for a fixed
budget `B`.  `init` is the initialization sequence of
`SuperZorkGame.run`: append the system turn, then drain
`stream_llm_chat(first_message)` and commit — the synthesized first
message is non-blank text.  `step` is one loop iteration on player input
that survived `user_input = input(...).strip()` / `if not user_input:
continue`, i.e. input that is already stripped and nonempty. -/
inductive Reach (B : ℚ) : List Message → Prop where
  | init (system_prompt first_message : String) (lines : List StreamLine)
      (fate : StreamFate) (hfm : pyStrip first_message ≠ "") :
      Reach B (commitResponse (appendUserIfNonblank [⟨"system", system_prompt⟩] first_message)
        (sessionFragments lines fate))
  | step (msgs : List Message) (user_input updated_story : String)
      (lines : List StreamLine) (fate : StreamFate)
      (h : Reach B msgs) (hin : pyStrip user_input = user_input) (hne : user_input ≠ "") :
      Reach B (loopStep B user_input updated_story lines fate msgs)

/-- The GUI game state relevant to the conversation engine:
`self.messages`, `self.display_messages` and `self.is_story_update`
of `SuperZorkGUI`. -/
structure GuiState where
  messages : List Message
  display_messages : List Message
  is_story_update : Bool
deriving DecidableEq

/-- `SuperZorkGUI.process_input`.  Returns the new state, the boolean the
method returns (`False` only for `quit`), and whether a streaming session
was started (`self.text_generator` was set; creating the generator is
lazy, so it does not yet touch `self.messages`).  The `undo` branch with
nothing to undo clears `self.is_story_update` and falls through to normal
processing, so the literal text `undo` is then sent as gameplay. -/
def process_input (B : ℚ) (st : GuiState) (user_input : String) :
    GuiState × Bool × Bool :=
  let command := pyStrip (pyLower user_input)
  if command = "quit" then
    (st, false, false)
  else if command = "undo" ∧ st.is_story_update then
    (st, true, false)
  else if command = "undo" ∧ 1 < st.messages.length ∧
      (st.messages.getLast?).map Message.role = some "assistant" then
    ({ messages := st.messages.dropLast
       display_messages :=
         if st.display_messages ≠ [] ∧
             (st.display_messages.getLast?).map Message.role = some "assistant" then
           st.display_messages.dropLast
         else st.display_messages
       is_story_update := true }, true, false)
  else if command = "debug" then
    (st, true, false)
  else
    let st1 := if command = "undo" then { st with is_story_update := false } else st
    if st1.is_story_update then
      if pyStrip user_input ≠ "" then
        ({ st1 with
            messages := st1.messages ++ [⟨"assistant", user_input⟩]
            display_messages :=
              st1.display_messages ++ [⟨"assistant", "(Updated Story): " ++ user_input⟩]
            is_story_update := false }, true, false)
      else
        ({ st1 with is_story_update := false }, true, false)
    else if pyStrip user_input ≠ "" then
      ({ st1 with
          messages := truncate_messages B st1.messages
          display_messages :=
            (st1.display_messages ++ [⟨"user", user_input⟩]) ++ [⟨"assistant", ""⟩] },
        true, true)
    else
      (st1, true, false)

/-- The cumulative effect of `SuperZorkGUI.update_ai_response` ticks from
the creation of `self.text_generator = self.stream_llm_chat(message)`
until `StopIteration`: the first `next` runs the generator preamble
(appending the user turn when the message is non-blank), each chunk is
appended to `self.display_messages[-1].content`, and on `StopIteration`
that accumulated content is committed to `self.messages` as an assistant
turn (with no emptiness check; both commits are guarded by
`if self.display_messages:`). -/
def drainStream (st : GuiState) (message : String) (lines : List StreamLine)
    (fate : StreamFate) : GuiState :=
  let msgs := appendUserIfNonblank st.messages message
  match st.display_messages.getLast? with
  | some last =>
      let grown : Message := ⟨last.role, last.content ++ accumulate (sessionFragments lines fate)⟩
      { messages := msgs ++ [⟨"assistant", grown.content⟩]
        display_messages := st.display_messages.dropLast ++ [grown]
        is_story_update := st.is_story_update }
  | none => { st with messages := msgs }

/-- One complete GUI interaction on a submitted input line:
`process_input`, then — when a streaming session was started — the
`update_ai_response` ticks until the stream is exhausted.  Returns the
resulting state and whether the game continues. -/
def guiStep (B : ℚ) (st : GuiState) (user_input : String) (lines : List StreamLine)
    (fate : StreamFate) : GuiState × Bool :=
  match process_input B st user_input with
  | (st1, cont, started) =>
      (if started then drainStream st1 user_input lines fate else st1, cont)

theorem truncateLoop_head? (B : ℚ) (msgs : List Message) :
    (truncateLoop B msgs).head? = msgs.head? := by
  refine truncateLoop.induct B (fun m => (truncateLoop B m).head? = m.head?) ?_ ?_ ?_ msgs
  · intro m hc h1 ih
    rw [truncateLoop, if_pos hc, dif_pos h1, ih]
    obtain ⟨a, b, rest, rfl⟩ : ∃ a b rest, m = a :: b :: rest := by
      match m, hc.2 with
      | a :: b :: rest, _ => exact ⟨a, b, rest, rfl⟩
    simp [List.eraseIdx_cons_succ]
  · intro m hc h1
    rw [truncateLoop, if_pos hc, dif_neg h1]
  · intro m hc
    rw [truncateLoop, if_neg hc]

theorem truncateLoop_length_le (B : ℚ) (msgs : List Message) :
    (truncateLoop B msgs).length ≤ msgs.length := by
  refine truncateLoop.induct B (fun m => (truncateLoop B m).length ≤ m.length) ?_ ?_ ?_ msgs
  · intro m hc h1 ih
    rw [truncateLoop, if_pos hc, dif_pos h1]
    have h2 : 1 < m.length := lt_of_lt_of_le h1 (Nat.sub_le _ _)
    have := List.length_eraseIdx_of_lt (l := m) (i := 1) h2
    omega
  · intro m hc h1
    rw [truncateLoop, if_pos hc, dif_neg h1]
  · intro m hc
    rw [truncateLoop, if_neg hc]

theorem truncateLoop_min_le_length (B : ℚ) (msgs : List Message) :
    min 3 msgs.length ≤ (truncateLoop B msgs).length := by
  refine truncateLoop.induct B (fun m => min 3 m.length ≤ (truncateLoop B m).length) ?_ ?_ ?_ msgs
  · intro m hc h1 ih
    rw [truncateLoop, if_pos hc, dif_pos h1]
    have h2 : 1 < m.length := lt_of_lt_of_le h1 (Nat.sub_le _ _)
    have := List.length_eraseIdx_of_lt (l := m) (i := 1) h2
    omega
  · intro m hc h1
    rw [truncateLoop, if_pos hc, dif_neg h1]
    omega
  · intro m hc
    rw [truncateLoop, if_neg hc]
    omega

theorem truncateLoop_budget_or_floor (B : ℚ) (msgs : List Message) :
    (totalWords (truncateLoop B msgs) : ℚ) ≤ B ∨ (truncateLoop B msgs).length ≤ 3 := by
  refine truncateLoop.induct B
    (fun m => (totalWords (truncateLoop B m) : ℚ) ≤ B ∨ (truncateLoop B m).length ≤ 3)
    ?_ ?_ ?_ msgs
  · intro m hc h1 ih
    rw [truncateLoop, if_pos hc, dif_pos h1]
    exact ih
  · intro m hc h1
    exact absurd hc.2 (by omega)
  · intro m hc
    rw [truncateLoop, if_neg hc]
    rcases not_and_or.mp hc with h | h
    · exact Or.inl (not_lt.mp h)
    · exact Or.inr (not_lt.mp h)

theorem truncate_messages_head? (B : ℚ) (msgs : List Message) :
    (truncate_messages B msgs).head? = msgs.head? := by
  unfold truncate_messages
  split
  · rfl
  · exact truncateLoop_head? B msgs

theorem truncate_messages_length_le (B : ℚ) (msgs : List Message) :
    (truncate_messages B msgs).length ≤ msgs.length := by
  unfold truncate_messages
  split
  · exact le_refl _
  · exact truncateLoop_length_le B msgs

theorem truncate_messages_min_le_length (B : ℚ) (msgs : List Message) :
    min 3 msgs.length ≤ (truncate_messages B msgs).length := by
  unfold truncate_messages
  split
  · omega
  · exact truncateLoop_min_le_length B msgs

theorem truncate_messages_budget_or_floor (B : ℚ) (msgs : List Message) :
    (totalWords (truncate_messages B msgs) : ℚ) ≤ B ∨ (truncate_messages B msgs).length ≤ 3 := by
  unfold truncate_messages
  split
  · next h => exact Or.inr (by omega)
  · exact truncateLoop_budget_or_floor B msgs

theorem truncate_messages_of_within_budget (B : ℚ) (msgs : List Message)
    (h : (totalWords msgs : ℚ) ≤ B) : truncate_messages B msgs = msgs := by
  unfold truncate_messages
  split
  · rfl
  · rw [truncateLoop, if_neg (by simp [not_lt.mpr h])]

/-- C1 (amended): for every message list and budget `B`, after
`truncate_messages` runs, either the total word count is at most `B` or
the conversation has at most 3 turns; pruning never drops the
conversation below `min 3` of its original length, so it stops at the
floor of 3 turns rather than dropping below it even while over budget.
(The original claim's "exactly 3 Turns" fails for over-budget
conversations that already hold fewer than 4 turns.) -/
theorem truncate_messages_budget_convergence (B : ℚ) (msgs : List Message) :
    ((totalWords (truncate_messages B msgs) : ℚ) ≤ B
      ∨ (truncate_messages B msgs).length ≤ 3)
    ∧ min 3 msgs.length ≤ (truncate_messages B msgs).length :=
  ⟨truncate_messages_budget_or_floor B msgs, truncate_messages_min_le_length B msgs⟩

/-- A two-entry conversation whose five words exceed a budget of 0. -/
def overBudgetPair : List Message :=
  [⟨"system", "x"⟩, ⟨"user", "w1 w2 w3 w4"⟩]

/-- C1 counterexample: on the two-turn conversation `overBudgetPair` with
budget `B = 0`, `truncate_messages` leaves the conversation over budget
with 2 turns — neither "total word count ≤ B" nor "exactly 3 Turns"
holds, refuting the claim as stated. -/
theorem truncate_messages_exactly_three_fails :
    ¬ ((totalWords (truncate_messages 0 overBudgetPair) : ℚ) ≤ 0
        ∨ (truncate_messages 0 overBudgetPair).length = 3) := by
  have hlen : ¬ (overBudgetPair.length < 2) := by decide
  have hcond : ¬ ((0 : ℚ) < (totalWords overBudgetPair : ℚ) ∧ 3 < overBudgetPair.length) := by
    intro h
    exact absurd h.2 (by decide)
  have he : truncate_messages 0 overBudgetPair = overBudgetPair := by
    unfold truncate_messages
    rw [if_neg hlen, truncateLoop, if_neg hcond]
  rw [he]
  rintro (h | h)
  · have h5 : totalWords overBudgetPair = 5 := by decide
    rw [h5] at h
    norm_num at h
  · exact absurd h (by decide)

/-- C10: `truncate_messages` is total (it is defined here by well-founded
recursion on the list length, mirroring the loop in which each iteration
removes exactly one message while the length stays above 3), it never
grows the list, and the number of removal steps — the difference between
the initial and final lengths — is at most `length - 3`. -/
theorem truncate_messages_terminates_with_bounded_steps (B : ℚ) (msgs : List Message) :
    (truncate_messages B msgs).length ≤ msgs.length
    ∧ msgs.length - (truncate_messages B msgs).length ≤ msgs.length - 3 := by
  have h1 := truncate_messages_length_le B msgs
  have h2 := truncate_messages_min_le_length B msgs
  exact ⟨h1, by omega⟩

theorem accumulate_foldl_shift (s : String) (l : List String) :
    l.foldl (fun acc t => acc ++ t) s = s ++ accumulate l := by
  induction l generalizing s with
  | nil => simp [accumulate]
  | cons a t ih =>
      simp only [accumulate, List.foldl_cons]
      rw [ih (s ++ a), ih ("" ++ a), String.empty_append, String.append_assoc]

theorem accumulate_cons (a : String) (l : List String) :
    accumulate (a :: l) = a ++ accumulate l := by
  simpa using accumulate_foldl_shift ("" ++ a) l

theorem accumulate_filter_nonempty (l : List String) :
    accumulate (l.filter (fun c => c ≠ "")) = accumulate l := by
  induction l with
  | nil => rfl
  | cons a t ih =>
      by_cases ha : a = ""
      · subst ha
        rw [List.filter_cons, if_neg (by simp), accumulate_cons, ih, String.empty_append]
      · rw [List.filter_cons, if_pos (by simp [ha]), accumulate_cons, accumulate_cons, ih]

theorem sessionFragments_fragments_then_done (fs : List String) :
    sessionFragments
        (fs.map (fun c => StreamLine.obj (some c) false) ++ [StreamLine.obj none true])
        StreamFate.closed
      = fs.filter (fun c => c ≠ "") := by
  induction fs with
  | nil => rfl
  | cons a t ih =>
      by_cases ha : a = ""
      · subst ha
        simpa [sessionFragments, lineFragment] using ih
      · simp [sessionFragments, lineFragment, ha, List.filter_cons, ih]

theorem accumulate_singleton (a : String) : accumulate [a] = a := by
  rw [accumulate_cons]
  exact String.append_empty a

theorem commitResponse_singleton (msgs : List Message) (s : String) (hs : s ≠ "") :
    commitResponse msgs [s] = msgs ++ [⟨"assistant", s⟩] := by
  unfold commitResponse
  rw [accumulate_singleton, if_pos hs]

/-- C4: for every stream whose valid JSON objects carry the content
fragments `fs` in order followed by a `done:true` terminator, the
assistant turn committed by the game loop is exactly the concatenation of
the fragments in emission order (falsy empty-string fragments are not
yielded, which does not change the concatenation); in particular the
fragments `["The ", "door ", "creaks."]` followed by `done:true` commit
the assistant turn `"The door creaks."`. -/
theorem stream_commit_is_concatenation (msgs : List Message) (fs : List String)
    (h : accumulate fs ≠ "") :
    commitResponse msgs
        (sessionFragments
          (fs.map (fun c => StreamLine.obj (some c) false) ++ [StreamLine.obj none true])
          StreamFate.closed)
      = msgs ++ [⟨"assistant", accumulate fs⟩]
    ∧ commitResponse msgs
        (sessionFragments
          [StreamLine.obj (some "The ") false, StreamLine.obj (some "door ") false,
           StreamLine.obj (some "creaks.") false, StreamLine.obj none true]
          StreamFate.closed)
      = msgs ++ [⟨"assistant", "The door creaks."⟩] := by
  have gen : ∀ (ms : List Message) (gs : List String), accumulate gs ≠ "" →
      commitResponse ms
          (sessionFragments
            (gs.map (fun c => StreamLine.obj (some c) false) ++ [StreamLine.obj none true])
            StreamFate.closed)
        = ms ++ [⟨"assistant", accumulate gs⟩] := by
    intro ms gs hg
    unfold commitResponse
    rw [sessionFragments_fragments_then_done, accumulate_filter_nonempty, if_pos hg]
  refine ⟨gen msgs fs h, ?_⟩
  have h2 := gen msgs ["The ", "door ", "creaks."] (by decide)
  have h3 : accumulate ["The ", "door ", "creaks."] = "The door creaks." := by decide
  rw [h3] at h2
  simpa using h2

/-- C4 witness: the theorem applied to the concrete stream
`["The ", "door ", "creaks."]` then `done:true` on an empty history. -/
theorem stream_commit_is_concatenation_witness :
    commitResponse []
        (sessionFragments
          [StreamLine.obj (some "The ") false, StreamLine.obj (some "door ") false,
           StreamLine.obj (some "creaks.") false, StreamLine.obj none true]
          StreamFate.closed)
      = [⟨"assistant", "The door creaks."⟩] := by
  have h := (stream_commit_is_concatenation [] ["The ", "door ", "creaks."] (by decide)).2
  simpa using h

/-- C5 (amended): a transport failure raised before any stream line was
delivered — a connection-establish timeout, a connection-refused error,
or a read timeout / generic request failure at the request itself —
produces the matching in-character fallback as the entire fragment
sequence, and that fallback alone is committed as the assistant turn;
the conversation continues: a loop step whose stream fails this way takes
any reachable conversation to a reachable conversation.  (As stated the
claim fails for a read timeout raised after fragments were already
yielded: the fallback is then appended after those fragments.) -/
theorem transport_failure_commits_fallback (msgs : List Message) :
    (sessionFragments [] StreamFate.errTimeout = [timeoutFallback]
      ∧ commitResponse msgs (sessionFragments [] StreamFate.errTimeout)
          = msgs ++ [⟨"assistant", timeoutFallback⟩])
    ∧ (sessionFragments [] StreamFate.errConn = [connectionFallback]
      ∧ commitResponse msgs (sessionFragments [] StreamFate.errConn)
          = msgs ++ [⟨"assistant", connectionFallback⟩])
    ∧ (sessionFragments [] StreamFate.errReq = [requestFallback]
      ∧ commitResponse msgs (sessionFragments [] StreamFate.errReq)
          = msgs ++ [⟨"assistant", requestFallback⟩])
    ∧ (∀ (B : ℚ) (user_input updated_story : String) (ms : List Message),
        Reach B ms → pyStrip user_input = user_input → user_input ≠ "" →
        Reach B (loopStep B user_input updated_story [] StreamFate.errConn ms)) := by
  refine ⟨⟨rfl, commitResponse_singleton msgs _ (by decide)⟩,
    ⟨rfl, commitResponse_singleton msgs _ (by decide)⟩,
    ⟨rfl, commitResponse_singleton msgs _ (by decide)⟩,
    ?_⟩
  intro B user_input updated_story ms hr hs hn
  exact Reach.step ms user_input updated_story [] StreamFate.errConn hr hs hn

/-- C5 witness: the theorem applied at an empty history, with the
continuation conjunct applied to the initial conversation
`[system "s", user "look"]` (reached with an immediately closing stream)
and the follow-up input `"north"`. -/
theorem transport_failure_commits_fallback_witness :
    commitResponse [] (sessionFragments [] StreamFate.errTimeout)
        = [⟨"assistant", timeoutFallback⟩]
    ∧ Reach 0 (loopStep 0 "north" "" [] StreamFate.errConn
        (commitResponse (appendUserIfNonblank [⟨"system", "s"⟩] "look")
          (sessionFragments [] StreamFate.closed))) :=
  ⟨by simpa using ((transport_failure_commits_fallback []).1).2,
   ((transport_failure_commits_fallback []).2.2.2) 0 "north" "" _
     (Reach.init "s" "look" [] StreamFate.closed (by decide)) (by decide) (by decide)⟩

/-- C5 counterexample: a read timeout raised after the fragment `"A"` was
already yielded produces the two-fragment sequence `["A", fallback]` —
the fallback is not the entire fragment sequence, refuting the claim as
stated for mid-stream read timeouts. -/
theorem midstream_timeout_not_sole_fragment :
    sessionFragments [StreamLine.obj (some "A") false] StreamFate.errTimeout
        = ["A", timeoutFallback]
    ∧ (sessionFragments [StreamLine.obj (some "A") false] StreamFate.errTimeout).length ≠ 1 := by
  constructor
  · decide
  · decide

/-- C6: a syntactically invalid JSON line anywhere in the stream is
silently skipped: the fragment sequence equals that of the same stream
without the malformed line, so a stream with one invalid line between two
valid fragment lines yields the concatenation of only the valid
fragments, in order, and the malformed line never aborts the session. -/
theorem malformed_line_skipped (l₁ l₂ : List StreamLine) (fate : StreamFate) :
    sessionFragments (l₁ ++ StreamLine.malformed :: l₂) fate
      = sessionFragments (l₁ ++ l₂) fate
    ∧ sessionFragments
        [StreamLine.obj (some "The ") false, StreamLine.malformed,
         StreamLine.obj (some "door creaks.") false, StreamLine.obj none true]
        StreamFate.closed
      = ["The ", "door creaks."] := by
  constructor
  · induction l₁ with
    | nil => rfl
    | cons a t ih =>
        cases a with
        | empty => simpa [sessionFragments] using ih
        | malformed => simpa [sessionFragments] using ih
        | obj c d =>
            by_cases hd : d = true
            · simp [sessionFragments, hd]
            · simp [sessionFragments, hd, ih]
  · decide

/-- C7: `stream_llm_chat` appends a user turn carrying the input message
to the conversation before issuing the request exactly when the message
is not empty/whitespace-only; a blank message leaves the conversation
unmodified. -/
theorem user_turn_append_iff_nonblank (msgs : List Message) (message : String) :
    (pyStrip message = "" → appendUserIfNonblank msgs message = msgs)
    ∧ (pyStrip message ≠ "" → appendUserIfNonblank msgs message = msgs ++ [⟨"user", message⟩]) := by
  constructor <;> intro h <;> simp [appendUserIfNonblank, h]

/-- C7 witness: the theorem applied to a whitespace-only message and to
the ordinary message `"go"`. -/
theorem user_turn_append_iff_nonblank_witness :
    appendUserIfNonblank [] "  " = [] ∧ appendUserIfNonblank [] "go" = [⟨"user", "go"⟩] :=
  ⟨(user_turn_append_iff_nonblank [] "  ").1 (by decide),
   (user_turn_append_iff_nonblank [] "go").2 (by decide)⟩

/-- Adjacent-pair constraint: not both turns are assistant turns. -/
def notBothAssistant (a b : Message) : Prop :=
  ¬(a.role = "assistant" ∧ b.role = "assistant")

/-- The structural well-formedness of a conversation that the game loop
maintains: a system turn at the head, only user and assistant turns after
it, and never two adjacent assistant turns. -/
structure ConvShape (msgs : List Message) : Prop where
  head_role : (msgs.head?).map Message.role = some "system"
  tail_roles : ∀ m ∈ msgs.tail, m.role = "user" ∨ m.role = "assistant"
  chain : List.Chain' notBothAssistant msgs

theorem ConvShape.ne_nil {msgs : List Message} (h : ConvShape msgs) : msgs ≠ [] := by
  intro e
  subst e
  simpa using h.head_role

theorem convShape_append (msgs : List Message) (x : Message) (h : ConvShape msgs)
    (hrole : x.role = "user" ∨ x.role = "assistant")
    (hlast : ∀ l, msgs.getLast? = some l → notBothAssistant l x) :
    ConvShape (msgs ++ [x]) := by
  have hne := h.ne_nil
  refine ⟨?_, ?_, ?_⟩
  · rw [List.head?_append_of_ne_nil _ hne]
    exact h.head_role
  · rw [List.tail_append_of_ne_nil hne]
    intro m hm
    rcases List.mem_append.mp hm with hm | hm
    · exact h.tail_roles m hm
    · rw [List.mem_singleton.mp hm]
      exact hrole
  · rw [List.chain'_append]
    refine ⟨h.chain, List.chain'_singleton x, ?_⟩
    intro a ha b hb
    have hb' : x = b := by simpa using hb
    subst hb'
    exact hlast a (Option.mem_def.mp ha)

theorem convShape_append_user (msgs : List Message) (c : String) (h : ConvShape msgs) :
    ConvShape (msgs ++ [⟨"user", c⟩]) := by
  refine convShape_append msgs _ h (Or.inl rfl) ?_
  intro l _ hc
  have hu : ("user" : String) = "assistant" := hc.2
  exact absurd hu (by decide)

theorem convShape_stream_commit (msgs : List Message) (input : String) (tokens : List String)
    (h : ConvShape msgs) (hi : pyStrip input ≠ "") :
    ConvShape (commitResponse (appendUserIfNonblank msgs input) tokens) := by
  rw [appendUserIfNonblank, if_pos hi]
  unfold commitResponse
  split
  · refine convShape_append _ _ (convShape_append_user msgs input h) (Or.inr rfl) ?_
    intro l hl
    rw [List.getLast?_concat] at hl
    cases hl
    intro hc
    have hu : ("user" : String) = "assistant" := hc.1
    exact absurd hu (by decide)
  · exact convShape_append_user msgs input h

theorem convShape_dropLast (msgs : List Message) (h : ConvShape msgs)
    (hlen : 1 < msgs.length) : ConvShape msgs.dropLast := by
  have hne := h.ne_nil
  obtain ⟨a, t, rfl⟩ : ∃ a t, msgs = a :: t := by
    cases msgs with
    | nil => exact absurd rfl hne
    | cons a t => exact ⟨a, t, rfl⟩
  have ht : t ≠ [] := by
    intro e
    subst e
    simp at hlen
  have hchain : List.Chain' notBothAssistant (a :: t).dropLast := by
    have hinf : (a :: t).dropLast <:+: (a :: t) :=
      ⟨[], [(a :: t).getLast hne], by simp [List.dropLast_append_getLast hne]⟩
    exact List.Chain'.infix h.chain hinf
  rw [List.dropLast_cons_of_ne_nil ht] at hchain ⊢
  refine ⟨by simpa using h.head_role, ?_, hchain⟩
  intro m hm
  exact h.tail_roles m ((List.dropLast_sublist t).subset hm)

theorem convShape_undo_replace (msgs : List Message) (repl : String) (h : ConvShape msgs)
    (hlen : 1 < msgs.length)
    (hlast : (msgs.getLast?).map Message.role = some "assistant") :
    ConvShape (msgs.dropLast ++ [⟨"assistant", repl⟩]) := by
  have hne := h.ne_nil
  refine convShape_append _ _ (convShape_dropLast msgs h hlen) (Or.inr rfl) ?_
  intro l hl
  have hsplit : msgs.dropLast ++ [msgs.getLast hne] = msgs := List.dropLast_append_getLast hne
  have hch := h.chain
  rw [← hsplit, List.chain'_append] at hch
  have hrel : notBothAssistant l (msgs.getLast hne) := by
    refine hch.2.2 l (Option.mem_def.mpr hl) _ ?_
    simp
  have hrole : (msgs.getLast hne).role = "assistant" := by
    rw [List.getLast?_eq_getLast msgs hne] at hlast
    simpa using hlast
  intro hc
  exact hrel ⟨hc.1, hrole⟩

theorem convShape_eraseSecond (a b : Message) (rest : List Message)
    (h : ConvShape (a :: b :: rest)) : ConvShape (a :: rest) := by
  have harole : a.role = "system" := by simpa using h.head_role
  refine ⟨by simpa using h.head_role, ?_, ?_⟩
  · intro m hm
    have hm' : m ∈ rest := hm
    exact h.tail_roles m (List.mem_cons_of_mem b hm')
  · rw [List.chain'_cons']
    refine ⟨?_, (h.chain.tail).tail⟩
    intro y _ hc
    rw [harole] at hc
    exact absurd hc.1 (by decide)

theorem convShape_truncateLoop (B : ℚ) (msgs : List Message) (h : ConvShape msgs) :
    ConvShape (truncateLoop B msgs) := by
  refine truncateLoop.induct B (fun m => ConvShape m → ConvShape (truncateLoop B m)) ?_ ?_ ?_ msgs h
  · intro m hc h1 ih hm
    rw [truncateLoop, if_pos hc, dif_pos h1]
    refine ih ?_
    obtain ⟨a, b, rest, rfl⟩ : ∃ a b rest, m = a :: b :: rest := by
      match m, hc.2 with
      | a :: b :: rest, _ => exact ⟨a, b, rest, rfl⟩
    rw [List.eraseIdx_cons_succ, List.eraseIdx_cons_zero]
    exact convShape_eraseSecond a b rest hm
  · intro m hc h1 hm
    rw [truncateLoop, if_pos hc, dif_neg h1]
    exact hm
  · intro m hc hm
    rw [truncateLoop, if_neg hc]
    exact hm

theorem convShape_truncate (B : ℚ) (msgs : List Message) (h : ConvShape msgs) :
    ConvShape (truncate_messages B msgs) := by
  unfold truncate_messages
  split
  · exact h
  · exact convShape_truncateLoop B msgs h

theorem handle_result_cases (msgs : List Message) (user_input updated_story : String) :
    (handle_special_commands msgs user_input updated_story).1 = msgs
    ∨ (1 < msgs.length ∧ (msgs.getLast?).map Message.role = some "assistant"
        ∧ ((handle_special_commands msgs user_input updated_story).1 = msgs.dropLast
            ∨ (handle_special_commands msgs user_input updated_story).1
                = msgs.dropLast ++ [⟨"assistant", updated_story⟩])) := by
  by_cases h1 : pyStrip (pyLower user_input) = "quit"
  · simp [handle_special_commands, h1]
  · by_cases h2 : pyStrip (pyLower user_input) = "undo"
    · by_cases h3 : 1 < msgs.length ∧ (msgs.getLast?).map Message.role = some "assistant"
      · by_cases h4 : pyStrip updated_story ≠ ""
        · refine Or.inr ⟨h3.1, h3.2, Or.inr ?_⟩
          simp [handle_special_commands, h1, h2, h3, h4]
        · refine Or.inr ⟨h3.1, h3.2, Or.inl ?_⟩
          simp [handle_special_commands, h1, h2, h3, h4]
      · have h3' : ¬(1 < msgs.length ∧ ∃ a, msgs.getLast? = some a ∧ a.role = "assistant") := by
          intro hx
          refine h3 ⟨hx.1, ?_⟩
          obtain ⟨a, ha, hrole⟩ := hx.2
          rw [ha]
          simpa using hrole
        simp [handle_special_commands, h1, h2, h3']
    · by_cases h5 : pyStrip (pyLower user_input) = "debug"
      · simp [handle_special_commands, h1, h2, h5]
      · by_cases h6 : pyStrip (pyLower user_input) = "help"
        · simp [handle_special_commands, h1, h2, h5, h6]
        · simp [handle_special_commands, h1, h2, h5, h6]

theorem convShape_handle (msgs : List Message) (user_input updated_story : String)
    (h : ConvShape msgs) :
    ConvShape (handle_special_commands msgs user_input updated_story).1 := by
  rcases handle_result_cases msgs user_input updated_story with he | ⟨hlen, hlast, he | he⟩
  · rw [he]
    exact h
  · rw [he]
    exact convShape_dropLast msgs h hlen
  · rw [he]
    exact convShape_undo_replace msgs updated_story h hlen hlast

theorem loopStep_eq (B : ℚ) (user_input updated_story : String) (lines : List StreamLine)
    (fate : StreamFate) (msgs : List Message) :
    loopStep B user_input updated_story lines fate msgs
      = if (handle_special_commands msgs user_input updated_story).2 then
          (handle_special_commands msgs user_input updated_story).1
        else
          commitResponse
            (appendUserIfNonblank
              (truncate_messages B (handle_special_commands msgs user_input updated_story).1)
              user_input)
            (sessionFragments lines fate) := rfl

theorem convShape_loopStep (B : ℚ) (user_input updated_story : String)
    (lines : List StreamLine) (fate : StreamFate) (msgs : List Message)
    (h : ConvShape msgs) (hin : pyStrip user_input = user_input) (hne : user_input ≠ "") :
    ConvShape (loopStep B user_input updated_story lines fate msgs) := by
  rw [loopStep_eq]
  have h1 := convShape_handle msgs user_input updated_story h
  split
  · exact h1
  · exact convShape_stream_commit _ user_input _ (convShape_truncate B _ h1)
      (by rw [hin]; exact hne)

theorem reach_convShape (B : ℚ) (ms : List Message) (h : Reach B ms) : ConvShape ms := by
  induction h with
  | init sp fm lines fate hfm =>
      refine convShape_stream_commit [⟨"system", sp⟩] fm _ ?_ hfm
      refine ⟨rfl, ?_, List.chain'_singleton _⟩
      intro m hm
      simp at hm
  | step ms ui us lines fate hr hin hne ih =>
      exact convShape_loopStep B ui us lines fate ms ih hin hne

theorem truncate_messages_of_short (B : ℚ) (msgs : List Message) (h : msgs.length ≤ 3) :
    truncate_messages B msgs = msgs := by
  unfold truncate_messages
  split
  · rfl
  · rw [truncateLoop, if_neg (fun hc => absurd hc.2 (by omega))]

theorem chain'_pair_of_getElem? {R : Message → Message → Prop} {l : List Message}
    (hc : List.Chain' R l) (i : Nat) (a b : Message)
    (ha : l[i]? = some a) (hb : l[i + 1]? = some b) : R a b := by
  rw [List.chain'_iff_get] at hc
  obtain ⟨hia, hga⟩ := List.getElem?_eq_some_iff.mp ha
  obtain ⟨hib, hgb⟩ := List.getElem?_eq_some_iff.mp hb
  have hr := hc i (by omega)
  simpa [List.get_eq_getElem, hga, hgb] using hr

theorem appendUserIfNonblank_head? (msgs : List Message) (input : String) (h : msgs ≠ []) :
    (appendUserIfNonblank msgs input).head? = msgs.head? := by
  unfold appendUserIfNonblank
  split
  · exact List.head?_append_of_ne_nil _ h
  · rfl

theorem commitResponse_head? (msgs : List Message) (tokens : List String) (h : msgs ≠ []) :
    (commitResponse msgs tokens).head? = msgs.head? := by
  unfold commitResponse
  split
  · exact List.head?_append_of_ne_nil _ h
  · rfl

theorem dropLast_head? (msgs : List Message) (hlen : 1 < msgs.length) :
    msgs.dropLast.head? = msgs.head? := by
  obtain ⟨a, t, rfl⟩ : ∃ a t, msgs = a :: t := by
    cases msgs with
    | nil => simp at hlen
    | cons a t => exact ⟨a, t, rfl⟩
  have ht : t ≠ [] := by
    intro e
    subst e
    simp at hlen
  rw [List.dropLast_cons_of_ne_nil ht]
  rfl

theorem handle_special_commands_head? (msgs : List Message)
    (user_input updated_story : String) (h : msgs ≠ []) :
    (handle_special_commands msgs user_input updated_story).1.head? = msgs.head? := by
  rcases handle_result_cases msgs user_input updated_story with he | ⟨hlen, _, he | he⟩
  · rw [he]
  · rw [he]
    exact dropLast_head? msgs hlen
  · rw [he]
    have hd : msgs.dropLast ≠ [] := by
      intro e
      have := congrArg List.length e
      simp at this
      omega
    rw [List.head?_append_of_ne_nil _ hd]
    exact dropLast_head? msgs hlen

theorem ne_nil_of_head?_eq {l l' : List Message} (he : l'.head? = l.head?) (h : l ≠ []) :
    l' ≠ [] := by
  intro e
  subst e
  cases l with
  | nil => exact h rfl
  | cons a t => simp at he

theorem loopStep_head? (B : ℚ) (user_input updated_story : String)
    (lines : List StreamLine) (fate : StreamFate) (msgs : List Message) (h : msgs ≠ []) :
    (loopStep B user_input updated_story lines fate msgs).head? = msgs.head? := by
  rw [loopStep_eq]
  have h1 := handle_special_commands_head? msgs user_input updated_story h
  have h1n := ne_nil_of_head?_eq h1 h
  split
  · exact h1
  · have h2 := truncate_messages_head? B (handle_special_commands msgs user_input updated_story).1
    have h2n := ne_nil_of_head?_eq (h2.trans h1) h
    have h3 := appendUserIfNonblank_head? _ user_input h2n
    have h3n := ne_nil_of_head?_eq ((h3.trans h2).trans h1) h
    have h4 := commitResponse_head? _ (sessionFragments lines fate) h3n
    rw [h4, h3, h2, h1]

/-- The conversation `[system, user "look"]` is reachable: initialization
with first message `"look"` and a stream that closes after `done`-less
empty output (no assistant turn committed). -/
theorem reach_sys_look : Reach 0 [⟨"system", "s"⟩, ⟨"user", "look"⟩] := by
  have h := Reach.init (B := 0) "s" "look" [] StreamFate.closed (by decide)
  have e : commitResponse (appendUserIfNonblank [⟨"system", "s"⟩] "look")
      (sessionFragments [] StreamFate.closed) = [⟨"system", "s"⟩, ⟨"user", "look"⟩] := by
    decide
  rwa [e] at h

/-- After the empty reply, the next accepted input `"go"` (whose reply is
also empty) leaves the reachable conversation `[system, user, user]`:
two consecutive user turns, produced without any undo. -/
theorem reach_sys_look_go :
    Reach 0 [⟨"system", "s"⟩, ⟨"user", "look"⟩, ⟨"user", "go"⟩] := by
  have h := Reach.step _ "go" "" [] StreamFate.closed reach_sys_look (by decide) (by decide)
  have e : loopStep 0 "go" "" [] StreamFate.closed [⟨"system", "s"⟩, ⟨"user", "look"⟩]
      = [⟨"system", "s"⟩, ⟨"user", "look"⟩, ⟨"user", "go"⟩] := by
    rw [loopStep_eq]
    have hh : handle_special_commands [⟨"system", "s"⟩, ⟨"user", "look"⟩] "go" ""
        = ([⟨"system", "s"⟩, ⟨"user", "look"⟩], false) := by decide
    rw [hh, if_neg Bool.false_ne_true,
      truncate_messages_of_short 0 _ (by decide)]
    decide
  rwa [e] at h

/-- One more ordinary exchange (`"north"`, answered by `"Ok."`) keeps the
consecutive user turns at positions 1 and 2: the duplicate persists. -/
theorem reach_sys_look_go_north :
    Reach 0 [⟨"system", "s"⟩, ⟨"user", "look"⟩, ⟨"user", "go"⟩, ⟨"user", "north"⟩,
      ⟨"assistant", "Ok."⟩] := by
  have h := Reach.step _ "north" "" [StreamLine.obj (some "Ok.") false, StreamLine.obj none true]
    StreamFate.closed reach_sys_look_go (by decide) (by decide)
  have e : loopStep 0 "north" "" [StreamLine.obj (some "Ok.") false, StreamLine.obj none true]
      StreamFate.closed [⟨"system", "s"⟩, ⟨"user", "look"⟩, ⟨"user", "go"⟩]
      = [⟨"system", "s"⟩, ⟨"user", "look"⟩, ⟨"user", "go"⟩, ⟨"user", "north"⟩,
          ⟨"assistant", "Ok."⟩] := by
    rw [loopStep_eq]
    have hh : handle_special_commands [⟨"system", "s"⟩, ⟨"user", "look"⟩, ⟨"user", "go"⟩]
        "north" "" = ([⟨"system", "s"⟩, ⟨"user", "look"⟩, ⟨"user", "go"⟩], false) := by decide
    rw [hh, if_neg Bool.false_ne_true,
      truncate_messages_of_short 0 _ (by decide)]
    decide
  rwa [e] at h

/-- C2 (amended): in every conversation reachable through the game loop's
operations, two consecutive turns that share a role are both `user`
turns: a system or assistant role is never shared by adjacent turns.
(The claim's stronger form — no two consecutive turns share a role except
transiently right after an undo — fails: an empty streamed reply or an
undo without replacement leaves a trailing user turn, and the next
accepted input appends a second user turn that persists.) -/
theorem adjacent_same_role_only_user (B : ℚ) (ms : List Message) (h : Reach B ms)
    (i : Nat) (a b : Message) (ha : ms[i]? = some a) (hb : ms[i + 1]? = some b)
    (hr : a.role = b.role) : a.role = "user" := by
  have hs := reach_convShape B ms h
  obtain ⟨hd, t, rfl⟩ : ∃ hd t, ms = hd :: t := by
    cases ms with
    | nil => exact absurd rfl hs.ne_nil
    | cons hd t => exact ⟨hd, t, rfl⟩
  cases i with
  | zero =>
      have ha' : hd = a := by simpa using ha
      have hb' : b ∈ t := List.getElem?_mem (by simpa using hb)
      have hhd : hd.role = "system" := by simpa using hs.head_role
      rw [← ha', hhd] at hr
      rcases hs.tail_roles b hb' with hbu | hba
      · rw [hbu] at hr
        exact absurd hr (by decide)
      · rw [hba] at hr
        exact absurd hr (by decide)
  | succ j =>
      have haMem : a ∈ t := List.getElem?_mem (by simpa using ha)
      rcases hs.tail_roles a haMem with hu | hassist
      · exact hu
      · exfalso
        have hpair := chain'_pair_of_getElem? hs.chain (j + 1) a b ha hb
        exact hpair ⟨hassist, hr ▸ hassist⟩

/-- C2 witness: the amended theorem applied at the reachable conversation
`[system, user "look", user "go"]` and the adjacent pair at indices 1, 2. -/
theorem adjacent_same_role_only_user_witness : (⟨"user", "look"⟩ : Message).role = "user" :=
  adjacent_same_role_only_user 0 _ reach_sys_look_go 1 ⟨"user", "look"⟩ ⟨"user", "go"⟩
    (by decide) (by decide) (by decide)

/-- C2 counterexample: the conversation `[system, user, user]` is
reachable by ordinary inputs only (no undo anywhere in the trace: the
inputs are `"look"`, `"go"`), its turns at indices 1 and 2 share the role
`user`, and the duplicate persists across the next accepted input
(`"north"`, reaching `[system, user, user, user, assistant]`) — refuting
the claim that consecutive equal roles occur only in the transient state
immediately after an undo and are resolved by the next accepted input. -/
theorem consecutive_user_turns_reachable_without_undo :
    Reach 0 [⟨"system", "s"⟩, ⟨"user", "look"⟩, ⟨"user", "go"⟩]
    ∧ ([⟨"system", "s"⟩, ⟨"user", "look"⟩, ⟨"user", "go"⟩] : List Message)[1]?.map Message.role
        = ([⟨"system", "s"⟩, ⟨"user", "look"⟩, ⟨"user", "go"⟩] :
            List Message)[2]?.map Message.role
    ∧ Reach 0 [⟨"system", "s"⟩, ⟨"user", "look"⟩, ⟨"user", "go"⟩, ⟨"user", "north"⟩,
        ⟨"assistant", "Ok."⟩] :=
  ⟨reach_sys_look_go, by decide, reach_sys_look_go_north⟩

/-- C3: once the conversation starts, exactly one system turn exists and
it is at index 0: in every reachable conversation the head has role
`system` and no turn after it has role `system`; `truncate_messages`
preserves the entry at index 0 for every message list, budget and input
size; and no whole game-loop iteration (ordinary input, control command,
undo, truncation and commit included) ever changes the entry at index 0
of a nonempty conversation. -/
theorem system_turn_unique_and_permanent :
    (∀ (B : ℚ) (ms : List Message), Reach B ms →
        (ms.head?).map Message.role = some "system" ∧ ∀ m ∈ ms.tail, m.role ≠ "system")
    ∧ (∀ (B : ℚ) (msgs : List Message),
        (truncate_messages B msgs).head? = msgs.head?)
    ∧ (∀ (B : ℚ) (user_input updated_story : String) (lines : List StreamLine)
        (fate : StreamFate) (msgs : List Message), msgs ≠ [] →
        (loopStep B user_input updated_story lines fate msgs).head? = msgs.head?) := by
  refine ⟨?_, truncate_messages_head?, loopStep_head?⟩
  intro B ms h
  have hs := reach_convShape B ms h
  refine ⟨hs.head_role, ?_⟩
  intro m hm
  rcases hs.tail_roles m hm with hu | hassist
  · rw [hu]
    decide
  · rw [hassist]
    decide

/-- C3 witness: the theorem applied at the reachable conversation
`[system, user "look"]` and at a concrete loop iteration on it. -/
theorem system_turn_unique_and_permanent_witness :
    (([⟨"system", "s"⟩, ⟨"user", "look"⟩] : List Message).head?).map Message.role
        = some "system"
    ∧ (loopStep 0 "go" "" [] StreamFate.closed
        [⟨"system", "s"⟩, ⟨"user", "look"⟩]).head?
        = ([⟨"system", "s"⟩, ⟨"user", "look"⟩] : List Message).head? :=
  ⟨(system_turn_unique_and_permanent.1 0 _ reach_sys_look).1,
   system_turn_unique_and_permanent.2.2 0 "go" "" [] StreamFate.closed _ (by decide)⟩

theorem undo_roundtrip_terminal (s u a R : String) (hR : pyStrip R ≠ "") :
    handle_special_commands [⟨"system", s⟩, ⟨"user", u⟩, ⟨"assistant", a⟩] "undo" R
      = ([⟨"system", s⟩, ⟨"user", u⟩, ⟨"assistant", R⟩], false) := by
  have h1 : ¬ (pyStrip (pyLower "undo") = "quit") := by decide
  have h2 : pyStrip (pyLower "undo") = "undo" := by decide
  simp [handle_special_commands, h1, h2, hR]

theorem undo_roundtrip_gui (B : ℚ) (s u a R : String) (dm : List Message)
    (hR : pyStrip R ≠ "")
    (hq : ¬ (pyStrip (pyLower R) = "quit"))
    (hu : ¬ (pyStrip (pyLower R) = "undo"))
    (hd : ¬ (pyStrip (pyLower R) = "debug")) :
    (process_input B
        ((process_input B ⟨[⟨"system", s⟩, ⟨"user", u⟩, ⟨"assistant", a⟩], dm, false⟩
          "undo").1) R).1.messages
      = [⟨"system", s⟩, ⟨"user", u⟩, ⟨"assistant", R⟩] := by
  have h1 : ¬ (pyStrip (pyLower "undo") = "quit") := by decide
  have h2 : pyStrip (pyLower "undo") = "undo" := by decide
  have e1 : (process_input B ⟨[⟨"system", s⟩, ⟨"user", u⟩, ⟨"assistant", a⟩], dm, false⟩
      "undo").1
      = ⟨[⟨"system", s⟩, ⟨"user", u⟩],
          if dm ≠ [] ∧ (dm.getLast?).map Message.role = some "assistant" then dm.dropLast
          else dm, true⟩ := by
    simp [process_input, h1, h2]
  rw [e1]
  simp [process_input, hq, hu, hd, hR]

/-- C8 (amended): starting from the conversation
`[system, user, assistant]`, issuing `undo` and then supplying a
replacement text `R` that is non-blank after stripping whitespace — and,
in the GUI, whose lowercased trimmed form is not itself one of the
control keywords `quit`/`undo`/`debug`, since the GUI reads the
replacement through the same input path as commands — yields
`[system, user, assistant(content = R)]` in both front ends: same
length, the last turn's content replaced by `R`, all other turns
unchanged.  (The original "any non-empty R" fails for whitespace-only
replacements, which the code treats as empty, and in the GUI for
replacements that spell a control keyword.) -/
theorem undo_round_trip (B : ℚ) (s u a R : String) (dm : List Message)
    (hR : pyStrip R ≠ "")
    (hq : ¬ (pyStrip (pyLower R) = "quit"))
    (hu : ¬ (pyStrip (pyLower R) = "undo"))
    (hd : ¬ (pyStrip (pyLower R) = "debug")) :
    handle_special_commands [⟨"system", s⟩, ⟨"user", u⟩, ⟨"assistant", a⟩] "undo" R
      = ([⟨"system", s⟩, ⟨"user", u⟩, ⟨"assistant", R⟩], false)
    ∧ (process_input B
        ((process_input B ⟨[⟨"system", s⟩, ⟨"user", u⟩, ⟨"assistant", a⟩], dm, false⟩
          "undo").1) R).1.messages
      = [⟨"system", s⟩, ⟨"user", u⟩, ⟨"assistant", R⟩] :=
  ⟨undo_roundtrip_terminal s u a R hR, undo_roundtrip_gui B s u a R dm hR hq hu hd⟩

/-- C8 witness: the theorem applied to the replacement `"New story"` on
the conversation `[system "s", user "u", assistant "a"]`. -/
theorem undo_round_trip_witness :
    handle_special_commands [⟨"system", "s"⟩, ⟨"user", "u"⟩, ⟨"assistant", "a"⟩]
        "undo" "New story"
      = ([⟨"system", "s"⟩, ⟨"user", "u"⟩, ⟨"assistant", "New story"⟩], false) :=
  (undo_round_trip 0 "s" "u" "a" "New story" [] (by decide) (by decide) (by decide)
    (by decide)).1

/-- C8 counterexample: the replacement `" "` is non-empty text, yet the
terminal undo leaves `[system, user]` — length 2, the assistant turn
dropped and nothing appended — instead of
`[system, user, assistant(" ")]`; and in the GUI (here started from the
post-undo story-edit state) the non-empty replacement `"quit"` ends the
game with the conversation still `[system, user]`. -/
theorem undo_round_trip_fails_on_blank :
    handle_special_commands [⟨"system", "s"⟩, ⟨"user", "u"⟩, ⟨"assistant", "a"⟩] "undo" " "
      = ([⟨"system", "s"⟩, ⟨"user", "u"⟩], false)
    ∧ process_input 0 (⟨[⟨"system", "s"⟩, ⟨"user", "u"⟩], [], true⟩ : GuiState) "quit"
      = (⟨[⟨"system", "s"⟩, ⟨"user", "u"⟩], [], true⟩, false, false) := by
  constructor
  · decide
  · decide

/-- C9: the control vocabulary claim fails on the code (the claim
reflects the documented intent: `handle_special_commands`'s docstring
says it returns `True` when a command was handled, and the run loop
forwards the input to the model whenever it returns `False`; yet only
`quit` returns `True`).  Evaluated at the failing input `"help"`:
the terminal handler returns `False` and the full loop iteration sends
`"help"` to the model, appending a `user "help"` turn and the streamed
reply — the conversation changes; the GUI's `process_input` has no
`help` branch at all and starts a streaming session that likewise
appends `user "help"` and an assistant turn. -/
theorem help_is_sent_to_model :
    (handle_special_commands [⟨"system", "s"⟩, ⟨"user", "u"⟩, ⟨"assistant", "a"⟩]
        "help" "").2 = false
    ∧ loopStep 100 "help" ""
        [StreamLine.obj (some "You see a lamp.") false, StreamLine.obj none true]
        StreamFate.closed [⟨"system", "s"⟩, ⟨"user", "u"⟩, ⟨"assistant", "a"⟩]
      = [⟨"system", "s"⟩, ⟨"user", "u"⟩, ⟨"assistant", "a"⟩, ⟨"user", "help"⟩,
          ⟨"assistant", "You see a lamp."⟩]
    ∧ (process_input 100 ⟨[⟨"system", "s"⟩, ⟨"user", "u"⟩, ⟨"assistant", "a"⟩], [], false⟩
        "help").2.2 = true
    ∧ (guiStep 100 ⟨[⟨"system", "s"⟩, ⟨"user", "u"⟩, ⟨"assistant", "a"⟩], [], false⟩ "help"
        [StreamLine.obj (some "You see a lamp.") false, StreamLine.obj none true]
        StreamFate.closed).1.messages
      = [⟨"system", "s"⟩, ⟨"user", "u"⟩, ⟨"assistant", "a"⟩, ⟨"user", "help"⟩,
          ⟨"assistant", "You see a lamp."⟩] := by
  refine ⟨by decide, ?_, ?_, ?_⟩
  · rw [loopStep_eq]
    have hh : handle_special_commands [⟨"system", "s"⟩, ⟨"user", "u"⟩, ⟨"assistant", "a"⟩]
        "help" "" = ([⟨"system", "s"⟩, ⟨"user", "u"⟩, ⟨"assistant", "a"⟩], false) := by decide
    rw [hh, if_neg Bool.false_ne_true, truncate_messages_of_short 100 _ (by decide)]
    decide
  · have hp : process_input 100
        ⟨[⟨"system", "s"⟩, ⟨"user", "u"⟩, ⟨"assistant", "a"⟩], [], false⟩ "help"
        = (⟨truncate_messages 100 [⟨"system", "s"⟩, ⟨"user", "u"⟩, ⟨"assistant", "a"⟩],
            [⟨"user", "help"⟩, ⟨"assistant", ""⟩], false⟩, true, true) := by
      have h1 : ¬ (pyStrip (pyLower "help") = "quit") := by decide
      have h2 : ¬ (pyStrip (pyLower "help") = "undo") := by decide
      have h3 : ¬ (pyStrip (pyLower "help") = "debug") := by decide
      have h4 : pyStrip "help" ≠ "" := by decide
      simp [process_input, h1, h2, h3, h4]
    rw [hp]
  · have hp : process_input 100
        ⟨[⟨"system", "s"⟩, ⟨"user", "u"⟩, ⟨"assistant", "a"⟩], [], false⟩ "help"
        = (⟨truncate_messages 100 [⟨"system", "s"⟩, ⟨"user", "u"⟩, ⟨"assistant", "a"⟩],
            [⟨"user", "help"⟩, ⟨"assistant", ""⟩], false⟩, true, true) := by
      have h1 : ¬ (pyStrip (pyLower "help") = "quit") := by decide
      have h2 : ¬ (pyStrip (pyLower "help") = "undo") := by decide
      have h3 : ¬ (pyStrip (pyLower "help") = "debug") := by decide
      have h4 : pyStrip "help" ≠ "" := by decide
      simp [process_input, h1, h2, h3, h4]
    rw [truncate_messages_of_short 100 _ (by decide)] at hp
    unfold guiStep
    rw [hp]
    simp only []
    unfold drainStream
    decide
